import Mathlib

/-!
Verification of the s3-file-manager transfer-orchestration core.

The TypeScript source is shallowly embedded: byte buffers become `List Nat`,
the S3 client becomes an oracle of per-call responses, retry loops become
fuel-bounded recursion (the fuel equals the configured `maxAttempts`, which
is exactly the number of iterations the source's loops can perform before
`handleRetryErrorLogging` throws).
-/

namespace S3FM

/-- JS `Math.ceil(a / b)` specialised to natural numbers: the source computes
`Math.ceil(totalFileSize / this.ctx.maxUploadPartSize)`. For `b > 0` this is
the usual ceiling division `(a + b - 1) / b`. -/
def jsCeilDiv (a b : Nat) : Nat := (a + b - 1) / b

/-- Shallow embedding of `UploadManager.bufferToChunks` (uploadManager.ts):
`numberOfParts = Math.ceil(totalFileSize / maxUploadPartSize)`, then for
`part = 1..numberOfParts`, `start = (part-1)*maxUploadPartSize`,
`end = Math.min(start + maxUploadPartSize, totalFileSize)`, pushing
`buffer.subarray(start, end)`.  Here `i = part - 1` ranges over
`List.range numberOfParts`, and `subarray start end` is
`(buffer.drop start).take (end - start)`. -/
def bufferToChunks (maxUploadPartSize : Nat) (buffer : List Nat) : List (List Nat) :=
  let totalFileSize := buffer.length
  let numberOfParts := jsCeilDiv totalFileSize maxUploadPartSize
  (List.range numberOfParts).map (fun i =>
    let start := i * maxUploadPartSize
    let stop := min (start + maxUploadPartSize) totalFileSize
    (buffer.drop start).take (stop - start))

/-- The inner `while (buffer.length >= maxUploadPartSize)` loop of
`UploadManager.streamToIterable`: repeatedly yields
`buffer.subarray(0, maxUploadPartSize)` and keeps
`buffer.subarray(maxUploadPartSize)`, returning the yielded chunks and the
final retained buffer.  The `0 < cs` guard reflects that the loop only
terminates for a positive chunk size (`maxUploadPartSize` is at least the
5 MiB minimum in the source). -/
def drainBuffer (cs : Nat) (buffer : List Nat) : List (List Nat) × List Nat :=
  if h : 0 < cs ∧ cs ≤ buffer.length then
    let rest := drainBuffer cs (buffer.drop cs)
    (buffer.take cs :: rest.1, rest.2)
  else ([], buffer)
termination_by buffer.length
decreasing_by simp only [List.length_drop]; omega

/-- One iteration of the `for await (const chunk of stream)` body of
`UploadManager.streamToIterable`: append the incoming chunk to the retained
buffer, then drain the buffer into full-size parts. -/
def streamStep (cs : Nat) (acc : List (List Nat) × List Nat) (chunk : List Nat) :
    List (List Nat) × List Nat :=
  let buffer := acc.2 ++ chunk
  let d := drainBuffer cs buffer
  (acc.1 ++ d.1, d.2)

/-- Shallow embedding of `UploadManager.streamToIterable` (uploadManager.ts):
the incremental source is a list of byte chunks in arrival order; the result
is the list of yielded chunks, including the final
`if (buffer.length) yield buffer` remainder. -/
def streamToIterable (cs : Nat) (source : List (List Nat)) : List (List Nat) :=
  let st := source.foldl (streamStep cs) ([], [])
  if st.2.length ≠ 0 then st.1 ++ [st.2] else st.1

/-- Typed model of the values thrown inside the upload/delete code paths. -/
inductive JsErr
  | s3 (name : String)
  | wrapped (action : String) (cause : JsErr)
deriving DecidableEq

/-- One trace event per `s3.send`, tagged with whether the call succeeded. -/
inductive Ev
  | putObject (key : String) (ok : Bool)
  | createMultipart (key : String) (ok : Bool)
  | uploadPart (key : String) (partNumber : Nat) (ok : Bool)
  | completeMultipart (key : String) (parts : Nat) (ok : Bool)
  | abortMultipart (key : String) (ok : Bool)
  | deleteObject (key : String) (ok : Bool)
deriving DecidableEq

/-- The S3 client as an oracle: call index `i` either succeeds (`none`) or
throws an error with the given name (`some name`).  `idx` counts the `send`
calls issued so far, `trace` records them, and `warns` counts `logger.warn`
invocations. -/
structure S3World where
  oracle : Nat → Option String
  idx : Nat
  trace : List Ev
  warns : Nat

/-- Issue one `s3.send`: consume the oracle entry at the current index. -/
def sendCall (w : S3World) (mk : Bool → Ev) : Option String × S3World :=
  let r := w.oracle w.idx
  (r, { w with idx := w.idx + 1, trace := w.trace ++ [mk r.isNone] })

/-- Model of `S3FMContext.handleRetryErrorLogging` (context.ts): on the final attempt
(`attempt === maxAttempts`) throws an `Error` wrapping the cause; otherwise
`logRetryWarning` emits two `logger.warn` lines (the attempt message and
"Retrying...") and returns. -/
def handleRetryErrorLogging (maxAttempts attempt : Nat) (action : String)
    (cause : JsErr) (w : S3World) : Option JsErr × S3World :=
  if attempt = maxAttempts then (some (JsErr.wrapped action cause), w)
  else (none, { w with warns := w.warns + 2 })

/-- Result of a modelled run.  `stuck` marks fuel exhaustion and corresponds
to the source looping forever (only reachable when `maxAttempts = 0`). -/
inductive Res (α : Type)
  | ok (val : α)
  | err (e : JsErr)
  | stuck
deriving DecidableEq

/-- The union of runtime shapes accepted for `FilePayload.content`
(input-types.ts): resident data (`string`, `Buffer`, `Uint8Array`), or a
streamed source delivering byte chunks (`Blob`, `Readable`,
`ReadableStream`). -/
inductive UploadContent
  | str (data : List Nat)
  | buffer (data : List Nat)
  | uint8 (data : List Nat)
  | blob (chunks : List (List Nat))
  | readable (chunks : List (List Nat))
  | readableStream (chunks : List (List Nat))
deriving DecidableEq

/-- Model of `FilePayload` (input-types.ts), restricted to the fields the upload logic
reads. -/
structure FilePayload where
  name : String
  content : UploadContent
  sizeHintBytes : Option Nat := none
deriving DecidableEq

/-- Model of `isStreamType` (utils/type-guards.ts): Blob, Readable, ReadableStream. -/
def isStreamType : UploadContent → Bool
  | .blob _ => true
  | .readable _ => true
  | .readableStream _ => true
  | _ => false

/-- The chunk sequence delivered by a streamed source (empty for resident
content, which never reaches the stream-reading code). -/
def streamChunks : UploadContent → List (List Nat)
  | .blob cks => cks
  | .readable cks => cks
  | .readableStream cks => cks
  | _ => []

/-- The `sizeInBytes` classification in `UploadManager.uploadFile`: the
explicit hint wins (`sizeHintBytes ?? ...`); otherwise resident content
reports its byte length (`Buffer.byteLength` / `.length` / `.byteLength` /
Blob `.size`) and `Readable`/`ReadableStream` sources report `undefined`. -/
def payloadSizeInBytes (f : FilePayload) : Option Nat :=
  match f.sizeHintBytes with
  | some n => some n
  | none =>
    match f.content with
    | .str d => some d.length
    | .buffer d => some d.length
    | .uint8 d => some d.length
    | .blob cks => some cks.flatten.length
    | .readable _ => none
    | .readableStream _ => none

/-- Chunk preparation in `UploadManager.multipartUpload`: stream-typed content
with falsy size (`!size`: undefined or 0) or size above 200 MiB is chunked
lazily by `streamToIterable`; otherwise the content is materialised as a
single buffer (`streamToBuffer` concatenates a streamed source; `Buffer.from`
is the identity on the modelled byte lists) and split by `bufferToChunks`. -/
def prepareChunks (cs : Nat) (content : UploadContent) (size : Option Nat) :
    List (List Nat) :=
  let sizeFalsy : Bool := match size with | none => true | some n => n == 0
  let sizeBig : Bool := match size with | none => false | some n => decide (200 * 1024 * 1024 < n)
  if isStreamType content && (sizeFalsy || sizeBig) then
    streamToIterable cs (streamChunks content)
  else
    let buffer := match content with
      | .str d => d
      | .buffer d => d
      | .uint8 d => d
      | c => (streamChunks c).flatten
    bufferToChunks cs buffer

/-- Retry loop of `UploadManager.simpleUpload`: one `PutObjectCommand` send
per iteration; on failure `handleRetryErrorLogging` either throws (final
attempt) or logs two warnings, and the loop repeats after the backoff wait
(timing is not modelled).  `fuel = maxAttempts` iterations always suffice
because the handler throws at `attempt = maxAttempts`. -/
def simpleUploadLoop (maxAttempts : Nat) (key name : String) (fuel attempt : Nat)
    (w : S3World) : Res String × S3World :=
  match fuel with
  | 0 => (Res.stuck, w)
  | fuel + 1 =>
    let s := sendCall w (Ev.putObject key)
    match s.1 with
    | none => (Res.ok key, s.2)
    | some e =>
      let h := handleRetryErrorLogging maxAttempts attempt
        ("to upload " ++ name) (JsErr.s3 e) s.2
      match h.1 with
      | some thrown => (Res.err thrown, h.2)
      | none => simpleUploadLoop maxAttempts key name fuel (attempt + 1) h.2

/-- Model of `UploadManager.simpleUpload`: computes the destination key
`(prefix ?? "") + file.name`, runs the retry loop, and returns the key. -/
def simpleUpload (maxAttempts : Nat) (file : FilePayload) (pre : Option String)
    (w : S3World) : Res String × S3World :=
  simpleUploadLoop maxAttempts (pre.getD "" ++ file.name) file.name maxAttempts 1 w

/-- Model of `UploadManager.uploadPartWithRetry`: one `UploadPartCommand` send per
iteration with the same retry/throw discipline. -/
def uploadPartWithRetry (maxAttempts : Nat) (filename : String) (partNumber : Nat)
    (fuel attempt : Nat) (w : S3World) : Res Unit × S3World :=
  match fuel with
  | 0 => (Res.stuck, w)
  | fuel + 1 =>
    let s := sendCall w (Ev.uploadPart filename partNumber)
    match s.1 with
    | none => (Res.ok (), s.2)
    | some e =>
      let h := handleRetryErrorLogging maxAttempts attempt
        ("to upload part " ++ toString partNumber ++ " of " ++ filename) (JsErr.s3 e) s.2
      match h.1 with
      | some thrown => (Res.err thrown, h.2)
      | none => uploadPartWithRetry maxAttempts filename partNumber fuel (attempt + 1) h.2

/-- The `for await (const chunk of fileChunks)` loop of
`UploadManager.multipartUpload`: parts are numbered from 1 and uploaded
sequentially through `uploadPartWithRetry`; returns the final part count. -/
def uploadPartsLoop (maxAttempts : Nat) (filename : String) (chunks : List (List Nat))
    (partNumber : Nat) (w : S3World) : Res Nat × S3World :=
  match chunks with
  | [] => (Res.ok (partNumber - 1), w)
  | _ :: rest =>
    let r := uploadPartWithRetry maxAttempts filename partNumber maxAttempts 1 w
    match r.1 with
    | Res.ok _ => uploadPartsLoop maxAttempts filename rest (partNumber + 1) r.2
    | Res.err e => (Res.err e, r.2)
    | Res.stuck => (Res.stuck, r.2)

/-- The `catch` block of `multipartUpload`'s outer `while (true)` loop: sends
`AbortMultipartUploadCommand` (unguarded in the source — if the abort `send`
itself throws, that error propagates out of the catch block and the handler
below is never reached), then `handleRetryErrorLogging` either throws the
wrapped original error (final attempt) or logs and lets the loop retry.
Returns `none` when the loop should retry. -/
def multipartCatch (maxAttempts attempt : Nat) (key : String) (cause : JsErr)
    (w : S3World) : Option (Res String) × S3World :=
  let a := sendCall w (Ev.abortMultipart key)
  match a.1 with
  | some abortErr => (some (Res.err (JsErr.s3 abortErr)), a.2)
  | none =>
    let h := handleRetryErrorLogging maxAttempts attempt ("to upload " ++ key) cause a.2
    match h.1 with
    | some thrown => (some (Res.err thrown), h.2)
    | none => (none, h.2)

/-- The outer `while (true)` loop of `UploadManager.multipartUpload`:
create the session, upload every chunk, complete the session; any caught
error goes through `multipartCatch` and either surfaces or retries the whole
loop (a successful create is modelled as always returning an `UploadId`). -/
def multipartLoop (maxAttempts : Nat) (key : String) (chunks : List (List Nat))
    (fuel attempt : Nat) (w : S3World) : Res String × S3World :=
  match fuel with
  | 0 => (Res.stuck, w)
  | fuel + 1 =>
    let c := sendCall w (Ev.createMultipart key)
    match c.1 with
    | some e =>
      let k := multipartCatch maxAttempts attempt key (JsErr.s3 e) c.2
      match k.1 with
      | some res => (res, k.2)
      | none => multipartLoop maxAttempts key chunks fuel (attempt + 1) k.2
    | none =>
      let p := uploadPartsLoop maxAttempts key chunks 1 c.2
      match p.1 with
      | Res.stuck => (Res.stuck, p.2)
      | Res.err e =>
        let k := multipartCatch maxAttempts attempt key e p.2
        match k.1 with
        | some res => (res, k.2)
        | none => multipartLoop maxAttempts key chunks fuel (attempt + 1) k.2
      | Res.ok nparts =>
        let f := sendCall p.2 (Ev.completeMultipart key nparts)
        match f.1 with
        | none => (Res.ok key, f.2)
        | some e =>
          let k := multipartCatch maxAttempts attempt key (JsErr.s3 e) f.2
          match k.1 with
          | some res => (res, k.2)
          | none => multipartLoop maxAttempts key chunks fuel (attempt + 1) k.2

/-- Model of `UploadManager.multipartUpload` for content whose chunk preparation
succeeds: prepares the chunk list once, then drives the outer retry loop;
returns `(prefix ?? "") + file.name` on success. -/
def multipartUpload (cs maxAttempts : Nat) (file : FilePayload) (size : Option Nat)
    (pre : Option String) (w : S3World) : Res String × S3World :=
  let key := pre.getD "" ++ file.name
  let chunks := prepareChunks cs file.content size
  multipartLoop maxAttempts key chunks maxAttempts 1 w

/-- Model of `UploadManager.uploadFile`: computes `sizeInBytes`, then routes to
`multipartUpload` when `sizeInBytes === undefined || sizeInBytes >
maxUploadPartSize`, else to `simpleUpload`. -/
def uploadFile (cs maxAttempts : Nat) (file : FilePayload) (pre : Option String)
    (w : S3World) : Res String × S3World :=
  match payloadSizeInBytes file with
  | none => multipartUpload cs maxAttempts file none pre w
  | some n =>
    if cs < n then multipartUpload cs maxAttempts file (some n) pre w
    else simpleUpload maxAttempts file pre w

/-- A world whose every S3 call succeeds. -/
def allOkWorld : S3World := ⟨fun _ => none, 0, [], 0⟩

/-- A world with a prescribed oracle and fresh counters. -/
def worldOf (f : Nat → Option String) : S3World := ⟨f, 0, [], 0⟩

def isPutEv : Ev → Bool
  | Ev.putObject _ _ => true
  | _ => false

def isCreateEv : Ev → Bool
  | Ev.createMultipart _ _ => true
  | _ => false

def isPartEv : Ev → Bool
  | Ev.uploadPart _ _ _ => true
  | _ => false

def isCompleteEv : Ev → Bool
  | Ev.completeMultipart _ _ _ => true
  | _ => false

def isAbortEv : Ev → Bool
  | Ev.abortMultipart _ _ => true
  | _ => false

/-- Model of `DeleteReturnType` (return-types.ts), restricted to the fields
`deleteFile` fills. -/
structure DeleteReturn where
  success : Bool
  deleted : Bool
  reason : Option String
deriving DecidableEq

/-- Retry loop of `FileService.deleteFile` (fileService.ts): one
`DeleteObjectCommand` send per iteration; a `NoSuchKey` error is special-cased
before the retry handler — it logs one warning and returns the non-throwing
"not found" result without retrying; any other error goes through
`handleRetryErrorLogging`. -/
def deleteFileLoop (m : Nat) (filePath : String) (fuel attempt : Nat) (w : S3World) :
    Res DeleteReturn × S3World :=
  match fuel with
  | 0 => (Res.stuck, w)
  | fuel + 1 =>
    let s := sendCall w (Ev.deleteObject filePath)
    match s.1 with
    | none => (Res.ok ⟨true, true, none⟩, s.2)
    | some e =>
      if e = "NoSuchKey" then
        (Res.ok ⟨false, false, some "File not found"⟩,
         { s.2 with warns := s.2.warns + 1 })
      else
        let h := handleRetryErrorLogging m attempt ("to delete file " ++ filePath)
          (JsErr.s3 e) s.2
        match h.1 with
        | some thrown => (Res.err thrown, h.2)
        | none => deleteFileLoop m filePath fuel (attempt + 1) h.2

/-- Model of `FileService.deleteFile`: runs the retry loop from attempt 1. -/
def deleteFile (m : Nat) (filePath : String) (w : S3World) : Res DeleteReturn × S3World :=
  deleteFileLoop m filePath m 1 w

/-- The file name recorded for a failed batch item (`file.name`). -/
def fileNameAt (files : List FilePayload) (i : Nat) : String :=
  match files[i]? with
  | some f => f.name
  | none => ""

/-- Model of `UploadManager.uploadMultipleFiles` (uploadManager.ts): every file's
`uploadFile` runs concurrently under `Promise.all`; a `Bottleneck` mutex
serialises the array pushes, so `filePaths` and `skippedFiles` receive one
entry per file in completion order.  `order` is that completion order (a
permutation of the file indices); `fails i` says whether file `i`'s upload
threw (exhausted retries) — then its *name* is pushed to `skippedFiles` — or
returned its destination key `(prefix ?? "") + name`, pushed to `filePaths`.
The per-file `catch` makes the whole function total: it never throws. -/
def uploadMultipleFiles (pre : Option String) (files : List FilePayload)
    (fails : Nat → Bool) (order : List Nat) : List String × List String :=
  order.foldl (fun acc i =>
    match files[i]? with
    | none => acc
    | some file =>
      if fails i then (acc.1, acc.2 ++ [file.name])
      else (acc.1 ++ [pre.getD "" ++ file.name], acc.2)) ([], [])

/-- One `ListObjectsV2` page: the store is a list of pages of keys; a request
carries an optional continuation token (a page index).  Following AWS
semantics the response echoes the request's `ContinuationToken` and carries
`NextContinuationToken` exactly when another page follows. -/
structure ListResponse where
  contents : List String
  continuationToken : Option Nat
  nextContinuationToken : Option Nat

def sendListObjectsV2 (store : List (List String)) (tok : Option Nat) : ListResponse :=
  let idx := tok.getD 0
  { contents := store.getD idx []
    continuationToken := tok
    nextContinuationToken := if idx + 1 < store.length then some (idx + 1) else none }

/-- Code-unit-wise lexicographic comparison of character lists, the order JS
uses to compare strings. -/
def lexLe : List Char → List Char → Bool
  | [], _ => true
  | _ :: _, [] => false
  | a :: as, b :: bs =>
    if a.toNat < b.toNat then true
    else if b.toNat < a.toNat then false
    else lexLe as bs

/-- Whether `a <= b` in JS string order. -/
def strLe (a b : String) : Bool := lexLe a.data b.data

/-- Insert into a lexicographically sorted list. -/
def insertSorted (a : String) : List String → List String
  | [] => [a]
  | b :: rest => if strLe a b then a :: b :: rest else b :: insertSorted a rest

/-- JS default `Array.prototype.sort` on strings (no `compareFn` supplied):
ascending code-unit lexicographic order, modelled by insertion sort (the
algorithm is implementation-defined; only order and content are specified). -/
def sortJs (l : List String) : List String := l.foldr insertSorted []

/-- The `do … while (continuationToken)` loop of `S3FMContext.listItems`
(context.ts): reads `response.NextContinuationToken` and writes it back into
`params.ContinuationToken` for the next iteration; each page's keys are
filtered (`.filter(Boolean).filter(filterFn)`) before accumulation.  Returns
the accumulated keys and the list of fetched page indices.  The per-page
retry loop collapses because the modelled store always responds. -/
def ctxListLoop (store : List (List String)) (filt : String → Bool)
    (tok : Option Nat) (acc : List String) (fetched : List Nat) (fuel : Nat) :
    List String × List Nat :=
  match fuel with
  | 0 => (acc, fetched)
  | fuel + 1 =>
    let resp := sendListObjectsV2 store tok
    let items := (resp.contents.filter (fun s => s ≠ "")).filter filt
    let acc := acc ++ items
    let fetched := fetched ++ [tok.getD 0]
    match resp.nextContinuationToken with
    | some t => ctxListLoop store filt (some t) acc fetched fuel
    | none => (acc, fetched)

/-- Model of `S3FMContext.listItems`: drive the pagination loop from no token, then
sort with the default comparator. -/
def ctxListItems (store : List (List String)) (filt : String → Bool) :
    List String × List Nat :=
  let r := ctxListLoop store filt none [] [] (store.length + 1)
  (sortJs r.1, r.2)

/-- The corresponding loop of `FileService.listItems` (fileService.ts): the
source reads `response.ContinuationToken` — the echo of the *request* token —
instead of `NextContinuationToken`, and never writes any token back into
`params`, so every iteration would re-request the same page.  `none` marks
fuel exhaustion (the loop spinning forever). -/
def fsListLoop (store : List (List String)) (filt : String → Bool)
    (paramsTok : Option Nat) (acc : List String) (fetched : List Nat) (fuel : Nat) :
    Option (List String × List Nat) :=
  match fuel with
  | 0 => none
  | fuel + 1 =>
    let resp := sendListObjectsV2 store paramsTok
    let items := (resp.contents.filter (fun s => s ≠ "")).filter filt
    let acc := acc ++ items
    let fetched := fetched ++ [paramsTok.getD 0]
    match resp.continuationToken with
    | some _ => fsListLoop store filt paramsTok acc fetched fuel
    | none => some (sortJs acc, fetched)

/-- Model of `FileService.listItems`: drive its loop from no token. -/
def fsListItems (store : List (List String)) (filt : String → Bool) :
    Option (List String × List Nat) :=
  fsListLoop store filt none [] [] (store.length + 1)

def MAX_ATTEMPTS_DEFAULT : Nat := 3

def DEFAULT_UPLOAD_PART_SIZE : Nat := 10 * 1024 * 1024

def MIN_UPLOAD_PART_SIZE : Nat := 5 * 1024 * 1024

def MAX_UPLOAD_PART_SIZE : Nat := 100 * 1024 * 1024

/-- The `S3FMContext` constructor (context.ts): converts the configured
`maxUploadPartSizeMB` to bytes (`0` when absent — and a configured `0` is
falsy in JS and also yields `0`), then accepts the value only strictly
between the 5 MiB minimum and the 100 MiB maximum, falling back to the
10 MiB default otherwise. -/
def effectiveMaxUploadPartSize (maxUploadPartSizeMB : Option Nat) : Nat :=
  let userMaxPartSize := match maxUploadPartSizeMB with
    | some mb => mb * 1024 * 1024
    | none => 0
  if MIN_UPLOAD_PART_SIZE < userMaxPartSize ∧ userMaxPartSize < MAX_UPLOAD_PART_SIZE
  then userMaxPartSize else DEFAULT_UPLOAD_PART_SIZE

/-- Whether the last character is a slash, as `.endsWith("/")` computes. -/
def endsWithSlash (s : String) : Bool := s.data.getLast? == some '/'

/-- Whether the first character is a slash, as `.startsWith("/")` computes. -/
def startsWithSlash (s : String) : Bool := s.data.head? == some '/'

/-- JS `String.prototype.trim`, modelled as stripping spaces at both ends. -/
def jsTrim (s : String) : String :=
  String.mk (((s.data.dropWhile (fun c => c = ' ')).reverse.dropWhile
    (fun c => c = ' ')).reverse)

/-- Model of `formatPrefix` (utils/formatPrefix.ts, also the private copy in
`FileService`): when the prefix ends with `/` and the filename starts with
`/`, drop the prefix's trailing slash (`prefix.slice(0, -1)`); when neither
holds, append a slash; otherwise return the prefix unchanged. -/
def formatPrefix (filename pre : String) : String :=
  if endsWithSlash pre && startsWithSlash filename then String.mk pre.data.dropLast
  else if !endsWithSlash pre && !startsWithSlash filename then pre ++ "/"
  else pre

/-- Model of `path.posix.basename`: strip trailing slashes, then take the segment
after the last remaining slash (`"/"` for all-slash input, `""` for `""`). -/
def posixBasename (p : String) : String :=
  let rev := p.data.reverse.dropWhile (fun c => c = '/')
  if rev.isEmpty then (if p.data.isEmpty then "" else "/")
  else String.mk (rev.takeWhile (fun c => c ≠ '/')).reverse

/-- The destination path computed by `FileService.copyFile` (fileService.ts):
`trimmedFilename = path.posix.basename(filePath).trim()`;
`toPrefix = destinationPrefix ? formatPrefix(trimmedFilename,
destinationPrefix.trim()) : ""`;
`destinationPath = toPrefix + (newFilename?.trim() ?? trimmedFilename)`. -/
def copyDestinationPath (filePath destinationPre : String)
    (newFilename : Option String) : String :=
  let trimmedFilename := jsTrim (posixBasename filePath)
  let toPre := if destinationPre ≠ "" then formatPrefix trimmedFilename (jsTrim destinationPre)
    else ""
  toPre ++ (match newFilename with
    | some nf => jsTrim nf
    | none => trimmedFilename)

/-- Strip every trailing slash. -/
def dropTrailingSlashes (s : String) : String :=
  String.mk (s.data.reverse.dropWhile (fun c => c = '/')).reverse

/-- C10's reading of the copy normalization: the destination equals the
prefix with its trailing slashes reduced to exactly one, followed by the
filename. -/
def joinedWithSingleSlash (pre filename dest : String) : Prop :=
  dest = dropTrailingSlashes pre ++ "/" ++ filename

/-- Oracle for the C3 counterexample: create succeeds, the single part upload
fails (exhausting `maxAttempts = 1`), and the abort call fails too. -/
def c3Oracle : Nat → Option String := fun i =>
  if i = 0 then none
  else if i = 1 then some "PartErr"
  else if i = 2 then some "AbortErr"
  else none

/-- Oracle for the C3 witness: create succeeds, the part upload fails, and
the abort call succeeds. -/
def c3wOracle : Nat → Option String := fun i =>
  if i = 0 then none
  else if i = 1 then some "PartErr"
  else none

/-- Oracle for the C4 counterexample: first call fails, second succeeds. -/
def c4Oracle : Nat → Option String := fun i => if i = 0 then some "E1" else none

/-- Oracle failing twice, then succeeding. -/
def c4wOracleA : Nat → Option String := fun i => if i < 2 then some "E" else none

/-- Oracle failing on every call. -/
def c4wOracleB : Nat → Option String := fun _ => some "E"

/-- Oracle for the C7 witness: one transient failure, then `NoSuchKey`. -/
def c7Oracle : Nat → Option String := fun i =>
  if i = 0 then some "Boom" else some "NoSuchKey"

/-- The function `jsCeilDiv` agrees with Mathlib's ceiling division on `ℕ`. -/
theorem jsCeilDiv_eq_ceilDiv (a b : Nat) : jsCeilDiv a b = a ⌈/⌉ b := rfl

theorem le_jsCeilDiv_mul (L cs : Nat) (hcs : 0 < cs) : L ≤ jsCeilDiv L cs * cs := by
  rw [jsCeilDiv_eq_ceilDiv, Nat.mul_comm]
  exact le_smul_ceilDiv hcs

theorem jsCeilDiv_pos (L cs : Nat) (hcs : 0 < cs) (hL : 0 < L) : 0 < jsCeilDiv L cs := by
  rw [jsCeilDiv_eq_ceilDiv]
  by_contra h
  have h0 : L ⌈/⌉ cs ≤ 0 := by omega
  have := (ceilDiv_le_iff_le_mul hcs).1 h0
  simp only [smul_eq_mul, Nat.mul_zero] at this
  omega

theorem pred_mul_lt_of_jsCeilDiv (L cs : Nat) (hcs : 0 < cs) (hL : 0 < L) :
    (jsCeilDiv L cs - 1) * cs < L := by
  have hn : 0 < jsCeilDiv L cs := jsCeilDiv_pos L cs hcs hL
  rw [jsCeilDiv_eq_ceilDiv] at hn ⊢
  by_contra h
  have h1 : L ≤ cs * (L ⌈/⌉ cs - 1) := by
    have := Nat.le_of_not_lt h
    calc L ≤ (L ⌈/⌉ cs - 1) * cs := this
    _ = cs * (L ⌈/⌉ cs - 1) := Nat.mul_comm _ _
  have h2 : L ⌈/⌉ cs ≤ L ⌈/⌉ cs - 1 := (ceilDiv_le_iff_le_mul hcs).2 h1
  omega

/-- Case analysis of the ceiling division against floor division and remainder. -/
theorem jsCeilDiv_cases (L cs : Nat) (hcs : 0 < cs) :
    (L % cs = 0 ∧ jsCeilDiv L cs = L / cs) ∨
    (L % cs ≠ 0 ∧ jsCeilDiv L cs = L / cs + 1) := by
  obtain ⟨A, hA⟩ : ∃ A, cs * (L / cs) = A := ⟨_, rfl⟩
  have hqr : A + L % cs = L := by rw [← hA]; exact Nat.div_add_mod L cs
  have hr : L % cs < cs := Nat.mod_lt _ hcs
  by_cases h0 : L % cs = 0
  · left
    refine ⟨h0, ?_⟩
    have h1 : L + cs - 1 = cs * (L / cs) + (cs - 1) := by rw [hA]; omega
    have hz : (cs - 1) / cs = 0 := Nat.div_eq_of_lt (by omega)
    unfold jsCeilDiv
    rw [h1, Nat.mul_add_div hcs, hz, Nat.add_zero]
  · right
    refine ⟨h0, ?_⟩
    have h1 : L + cs - 1 = cs * (L / cs + 1) + (L % cs - 1) := by
      rw [Nat.mul_succ, hA]; omega
    have hz : (L % cs - 1) / cs = 0 := Nat.div_eq_of_lt (by omega)
    unfold jsCeilDiv
    rw [h1, Nat.mul_add_div hcs, hz, Nat.add_zero]

theorem bufferToChunks_length (cs : Nat) (buffer : List Nat) :
    (bufferToChunks cs buffer).length = jsCeilDiv buffer.length cs := by
  simp [bufferToChunks]

theorem bufferToChunks_getElem (cs : Nat) (buffer : List Nat) (i : Nat)
    (h : i < (bufferToChunks cs buffer).length) :
    (bufferToChunks cs buffer)[i] =
      (buffer.drop (i * cs)).take (min ((i + 1) * cs) buffer.length - i * cs) := by
  have h' : i < jsCeilDiv buffer.length cs := by
    rw [← bufferToChunks_length cs buffer]; exact h
  simp only [bufferToChunks, List.getElem_map, List.getElem_range]
  rw [Nat.succ_mul]

/-- Byte length of the `i`-th chunk. -/
theorem bufferToChunks_getElem_length (cs : Nat) (hcs : 0 < cs) (buffer : List Nat)
    (i : Nat) (h : i < (bufferToChunks cs buffer).length) :
    (bufferToChunks cs buffer)[i].length =
      min ((i + 1) * cs) buffer.length - i * cs := by
  rw [bufferToChunks_getElem cs buffer i h]
  have h' : i < jsCeilDiv buffer.length cs := by
    rw [← bufferToChunks_length cs buffer]; exact h
  have hL : 0 < buffer.length := by
    by_contra hL
    have hz : buffer.length = 0 := by omega
    have : jsCeilDiv buffer.length cs = 0 := by
      rw [hz]
      show (0 + cs - 1) / cs = 0
      rw [Nat.zero_add]
      exact Nat.div_eq_of_lt (by omega)
    omega
  have hlow : i * cs < buffer.length := by
    have h1 : (jsCeilDiv buffer.length cs - 1) * cs < buffer.length :=
      pred_mul_lt_of_jsCeilDiv buffer.length cs hcs hL
    have h2 : i * cs ≤ (jsCeilDiv buffer.length cs - 1) * cs :=
      Nat.mul_le_mul_right cs (by omega)
    omega
  simp only [List.length_take, List.length_drop]
  omega

theorem bufferToChunks_full_chunk (cs : Nat) (hcs : 0 < cs) (buffer : List Nat)
    (i : Nat) (h : i < (bufferToChunks cs buffer).length)
    (hnl : i + 1 < (bufferToChunks cs buffer).length) :
    (bufferToChunks cs buffer)[i].length = cs := by
  rw [bufferToChunks_getElem_length cs hcs buffer i h]
  have hn : i + 1 < jsCeilDiv buffer.length cs := by
    rw [← bufferToChunks_length cs buffer]; exact hnl
  have hL : 0 < buffer.length := by
    by_contra hz
    have h0 : buffer.length = 0 := by omega
    have : jsCeilDiv buffer.length cs = 0 := by
      rw [h0]
      show (0 + cs - 1) / cs = 0
      rw [Nat.zero_add]
      exact Nat.div_eq_of_lt (by omega)
    omega
  have h1 : (jsCeilDiv buffer.length cs - 1) * cs < buffer.length :=
    pred_mul_lt_of_jsCeilDiv buffer.length cs hcs hL
  have h2 : (i + 1) * cs ≤ (jsCeilDiv buffer.length cs - 1) * cs :=
    Nat.mul_le_mul_right cs (by omega)
  have h3 : (i + 1) * cs = i * cs + cs := Nat.succ_mul i cs
  omega

theorem bufferToChunks_last_chunk (cs : Nat) (hcs : 0 < cs) (buffer : List Nat)
    (c : List Nat) (h : (bufferToChunks cs buffer).getLast? = some c) :
    c.length = if buffer.length % cs = 0 then cs else buffer.length % cs := by
  have hne : bufferToChunks cs buffer ≠ [] := by
    intro hz
    rw [hz] at h
    simp at h
  have hlen : 0 < (bufferToChunks cs buffer).length := List.length_pos.2 hne
  have hget : c = (bufferToChunks cs buffer)[(bufferToChunks cs buffer).length - 1] := by
    rw [List.getLast?_eq_getElem?] at h
    have := List.getElem?_eq_getElem
      (l := bufferToChunks cs buffer) (n := (bufferToChunks cs buffer).length - 1) (by omega)
    rw [this] at h
    exact (Option.some.inj h).symm
  subst hget
  set n := jsCeilDiv buffer.length cs with hn
  have hlen' : (bufferToChunks cs buffer).length = n := bufferToChunks_length cs buffer
  have hL : 0 < buffer.length := by
    by_contra hz
    have h0 : buffer.length = 0 := by omega
    have : jsCeilDiv buffer.length cs = 0 := by
      rw [h0]
      show (0 + cs - 1) / cs = 0
      rw [Nat.zero_add]
      exact Nat.div_eq_of_lt (by omega)
    omega
  rw [bufferToChunks_getElem_length cs hcs buffer _ (by omega)]
  obtain ⟨A, hA⟩ : ∃ A, cs * (buffer.length / cs) = A := ⟨_, rfl⟩
  have hqr : A + buffer.length % cs = buffer.length := by
    rw [← hA]; exact Nat.div_add_mod buffer.length cs
  have hr : buffer.length % cs < cs := Nat.mod_lt _ hcs
  rcases jsCeilDiv_cases buffer.length cs hcs with ⟨h0, hq⟩ | ⟨h0, hq⟩
  · -- cs divides L: last index is L/cs - 1 and the chunk is a full one
    rw [hlen', hn, hq]
    have hq1 : 0 < buffer.length / cs := by
      by_contra hz
      have : buffer.length / cs = 0 := by omega
      rw [this] at hA
      omega
    have e1 : (buffer.length / cs - 1 + 1) * cs = A := by
      have : buffer.length / cs - 1 + 1 = buffer.length / cs := by omega
      rw [this, Nat.mul_comm]
      exact hA
    have e2 : (buffer.length / cs - 1) * cs = A - cs := by
      rw [Nat.sub_mul, Nat.one_mul, Nat.mul_comm, hA]
    have hcsA : cs ≤ A := by
      rw [← hA]
      calc cs = cs * 1 := (Nat.mul_one cs).symm
      _ ≤ cs * (buffer.length / cs) := Nat.mul_le_mul_left cs hq1
    rw [e1, e2]
    simp only [h0, if_true]
    omega
  · -- cs does not divide L: last chunk carries the remainder
    rw [hlen', hn, hq]
    have e0 : buffer.length / cs + 1 - 1 = buffer.length / cs := by omega
    rw [e0]
    have e1 : (buffer.length / cs + 1) * cs = A + cs := by
      rw [Nat.succ_mul, Nat.mul_comm, hA]
    have e2 : buffer.length / cs * cs = A := by rw [Nat.mul_comm]; exact hA
    rw [e1, e2]
    simp only [h0, if_false]
    omega

theorem bufferToChunks_nil (cs : Nat) (hcs : 0 < cs) :
    bufferToChunks cs [] = [] := by
  have : jsCeilDiv 0 cs = 0 := by
    show (0 + cs - 1) / cs = 0
    rw [Nat.zero_add]
    exact Nat.div_eq_of_lt (by omega)
  simp [bufferToChunks, this]

/-- C2: for a resident buffer of length `L` and `chunkSize > 0`, `bufferToChunks`
produces exactly `ceil(L / chunkSize)` chunks; the `i`-th chunk (0-based) spans
the byte range `[i*chunkSize, min((i+1)*chunkSize, L))`; every chunk except the
last has size exactly `chunkSize`; the last chunk has size `L % chunkSize`
(or `chunkSize` when `chunkSize` divides `L` evenly); and `L = 0` produces
zero chunks. -/
theorem C2_bufferToChunks_shape (cs : Nat) (hcs : 0 < cs) (buffer : List Nat) :
    (bufferToChunks cs buffer).length = jsCeilDiv buffer.length cs ∧
    (∀ i, ∀ h : i < (bufferToChunks cs buffer).length,
      (bufferToChunks cs buffer)[i] =
        (buffer.drop (i * cs)).take (min ((i + 1) * cs) buffer.length - i * cs)) ∧
    (∀ i, ∀ h : i < (bufferToChunks cs buffer).length,
      i + 1 < (bufferToChunks cs buffer).length →
      (bufferToChunks cs buffer)[i].length = cs) ∧
    (∀ c, (bufferToChunks cs buffer).getLast? = some c →
      c.length = if buffer.length % cs = 0 then cs else buffer.length % cs) ∧
    (buffer.length = 0 → bufferToChunks cs buffer = []) := by
  refine ⟨bufferToChunks_length cs buffer,
    fun i h => bufferToChunks_getElem cs buffer i h,
    fun i h hnl => bufferToChunks_full_chunk cs hcs buffer i h hnl,
    fun c hc => bufferToChunks_last_chunk cs hcs buffer c hc,
    fun hz => ?_⟩
  have : buffer = [] := List.length_eq_zero.1 hz
  rw [this]
  exact bufferToChunks_nil cs hcs

theorem drainBuffer_mem_length (cs : Nat) (buffer : List Nat) :
    ∀ c ∈ (drainBuffer cs buffer).1, c.length = cs := by
  induction buffer using drainBuffer.induct cs with
  | case1 b h ih =>
    intro c hc
    rw [drainBuffer, dif_pos h] at hc
    simp only at hc
    rcases List.mem_cons.1 hc with hc | hc
    · rw [hc]
      simp only [List.length_take]
      omega
    · exact ih c hc
  | case2 b h =>
    intro c hc
    rw [drainBuffer, dif_neg h] at hc
    simp at hc

theorem drainBuffer_flatten (cs : Nat) (buffer : List Nat) :
    (drainBuffer cs buffer).1.flatten ++ (drainBuffer cs buffer).2 = buffer := by
  induction buffer using drainBuffer.induct cs with
  | case1 b h ih =>
    rw [drainBuffer, dif_pos h]
    simp only [List.flatten_cons, List.append_assoc]
    rw [ih]
    exact List.take_append_drop cs b
  | case2 b h =>
    rw [drainBuffer, dif_neg h]
    simp

theorem drainBuffer_rest_lt (cs : Nat) (hcs : 0 < cs) (buffer : List Nat) :
    (drainBuffer cs buffer).2.length < cs := by
  induction buffer using drainBuffer.induct cs with
  | case1 b h ih =>
    rw [drainBuffer, dif_pos h]
    exact ih
  | case2 b h =>
    rw [drainBuffer, dif_neg h]
    simp only
    omega

theorem mem_of_getLast?_eq_some {α : Type} {l : List α} {a : α}
    (h : l.getLast? = some a) : a ∈ l := by
  have hx : a ∈ l.getLast? := h
  obtain ⟨hne, hx⟩ := List.mem_getLast?_eq_getLast hx
  rw [hx]
  exact List.getLast_mem hne

theorem streamFold_spec (cs : Nat) (hcs : 0 < cs) :
    ∀ (source : List (List Nat)) (init : List (List Nat) × List Nat),
    (∀ c ∈ init.1, c.length = cs) → init.2.length < cs →
    (∀ c ∈ (source.foldl (streamStep cs) init).1, c.length = cs) ∧
    (source.foldl (streamStep cs) init).2.length < cs ∧
    (source.foldl (streamStep cs) init).1.flatten ++ (source.foldl (streamStep cs) init).2
      = init.1.flatten ++ (init.2 ++ source.flatten) := by
  intro source
  induction source with
  | nil =>
    intro init h1 h2
    refine ⟨h1, h2, ?_⟩
    simp
  | cons a as ih =>
    intro init h1 h2
    rw [List.foldl_cons]
    have hstep1 : ∀ c ∈ (streamStep cs init a).1, c.length = cs := by
      intro c hc
      simp only [streamStep] at hc
      rcases List.mem_append.1 hc with hc | hc
      · exact h1 c hc
      · exact drainBuffer_mem_length cs (init.2 ++ a) c hc
    have hstep2 : (streamStep cs init a).2.length < cs :=
      drainBuffer_rest_lt cs hcs (init.2 ++ a)
    obtain ⟨r1, r2, r3⟩ := ih (streamStep cs init a) hstep1 hstep2
    refine ⟨r1, r2, ?_⟩
    rw [r3]
    simp only [streamStep]
    rw [List.flatten_append, List.flatten_cons, List.append_assoc]
    congr 1
    rw [← List.append_assoc, ← List.append_assoc, drainBuffer_flatten]

/-- C5: for an incremental (streamed) source, `streamToIterable` yields chunks
of which every one except possibly the last has size exactly `chunkSize`, the
last yielded chunk is nonempty and at most `chunkSize` bytes, and the
concatenation of all yielded chunks equals the concatenation of the bytes
produced by the source. -/
theorem C5_streamToIterable_shape (cs : Nat) (hcs : 0 < cs) (source : List (List Nat)) :
    (∀ c ∈ (streamToIterable cs source).dropLast, c.length = cs) ∧
    (∀ c, (streamToIterable cs source).getLast? = some c →
      0 < c.length ∧ c.length ≤ cs) ∧
    (streamToIterable cs source).flatten = source.flatten := by
  obtain ⟨h1, h2, h3⟩ :=
    streamFold_spec cs hcs source ([], []) (by intro c hc; simp at hc) (by simp; omega)
  simp only [List.flatten_nil, List.nil_append] at h3
  unfold streamToIterable
  by_cases hb : (source.foldl (streamStep cs) ([], [])).2.length ≠ 0
  · rw [if_pos hb]
    refine ⟨?_, ?_, ?_⟩
    · intro c hc
      rw [List.dropLast_concat] at hc
      exact h1 c hc
    · intro c hc
      rw [List.getLast?_concat] at hc
      have hceq : c = (source.foldl (streamStep cs) ([], [])).2 := (Option.some.inj hc).symm
      subst hceq
      omega
    · rw [List.flatten_append]
      simp only [List.flatten_cons, List.flatten_nil, List.append_nil]
      exact h3
  · rw [if_neg hb]
    have hbz : (source.foldl (streamStep cs) ([], [])).2 = [] :=
      List.length_eq_zero.1 (by omega)
    refine ⟨?_, ?_, ?_⟩
    · intro c hc
      exact h1 c (List.mem_of_mem_dropLast hc)
    · intro c hc
      have hmem : c ∈ (source.foldl (streamStep cs) ([], [])).1 :=
        mem_of_getLast?_eq_some hc
      have := h1 c hmem
      omega
    · rw [← h3, hbz, List.append_nil]

/-- Witness for C5 at `chunkSize = 2` on a two-chunk source. -/
theorem C5_witness :
    (∀ c ∈ (streamToIterable 2 [[1, 2, 3], [4]]).dropLast, c.length = 2) ∧
    (∀ c, (streamToIterable 2 [[1, 2, 3], [4]]).getLast? = some c →
      0 < c.length ∧ c.length ≤ 2) ∧
    (streamToIterable 2 [[1, 2, 3], [4]]).flatten = ([[1, 2, 3], [4]] : List (List Nat)).flatten :=
  C5_streamToIterable_shape 2 (by decide) [[1, 2, 3], [4]]

/-- Witness for C2 at `chunkSize = 2` over a five-byte buffer. -/
theorem C2_witness :
    (bufferToChunks 2 [0, 1, 2, 3, 4]).length = jsCeilDiv ([0, 1, 2, 3, 4] : List Nat).length 2 ∧
    (∀ i, ∀ h : i < (bufferToChunks 2 [0, 1, 2, 3, 4]).length,
      (bufferToChunks 2 [0, 1, 2, 3, 4])[i] =
        (([0, 1, 2, 3, 4] : List Nat).drop (i * 2)).take
          (min ((i + 1) * 2) ([0, 1, 2, 3, 4] : List Nat).length - i * 2)) ∧
    (∀ i, ∀ h : i < (bufferToChunks 2 [0, 1, 2, 3, 4]).length,
      i + 1 < (bufferToChunks 2 [0, 1, 2, 3, 4]).length →
      (bufferToChunks 2 [0, 1, 2, 3, 4])[i].length = 2) ∧
    (∀ c, (bufferToChunks 2 [0, 1, 2, 3, 4]).getLast? = some c →
      c.length = if ([0, 1, 2, 3, 4] : List Nat).length % 2 = 0 then 2
        else ([0, 1, 2, 3, 4] : List Nat).length % 2) ∧
    (([0, 1, 2, 3, 4] : List Nat).length = 0 → bufferToChunks 2 [0, 1, 2, 3, 4] = []) :=
  C2_bufferToChunks_shape 2 (by decide) [0, 1, 2, 3, 4]

theorem uploadPartWithRetry_ok (m : Nat) (fn : String) (pn : Nat) (fuel attempt : Nat)
    (hfuel : 0 < fuel) (w : S3World) (hor : ∀ i, w.oracle i = none) :
    uploadPartWithRetry m fn pn fuel attempt w =
      (Res.ok (), { w with idx := w.idx + 1,
                           trace := w.trace ++ [Ev.uploadPart fn pn true] }) := by
  cases fuel with
  | zero => omega
  | succ f =>
    rw [uploadPartWithRetry]
    simp [sendCall, hor]

theorem uploadPartsLoop_ok (m : Nat) (hm : 0 < m) (fn : String) (chunks : List (List Nat)) :
    ∀ (pn : Nat) (w : S3World), (∀ i, w.oracle i = none) →
    uploadPartsLoop m fn chunks pn w =
      (Res.ok (pn + chunks.length - 1),
       { w with idx := w.idx + chunks.length,
                trace := w.trace ++ (List.range chunks.length).map
                  (fun i => Ev.uploadPart fn (pn + i) true) }) := by
  induction chunks with
  | nil =>
    intro pn w hor
    simp [uploadPartsLoop]
  | cons c rest ih =>
    intro pn w hor
    rw [uploadPartsLoop]
    rw [uploadPartWithRetry_ok m fn pn m 1 hm w hor]
    simp only
    rw [ih (pn + 1) _ (by intro i; exact hor i)]
    refine Prod.ext ?_ ?_
    · simp only [List.length_cons]
      congr 1
      omega
    · simp only [List.length_cons]
      refine congrArg₂ (fun a b => S3World.mk w.oracle a b w.warns) ?_ ?_
      · omega
      · have hf : ((fun i => Ev.uploadPart fn (pn + i) true) ∘ Nat.succ)
            = (fun i => Ev.uploadPart fn (pn + 1 + i) true) := by
          funext i
          simp only [Function.comp_apply]
          congr 1
          omega
        rw [List.range_succ_eq_map, List.map_cons, List.map_map, hf]
        conv_rhs => rw [List.append_cons]
        simp

theorem multipartLoop_ok (m : Nat) (hm : 0 < m) (key : String) (chunks : List (List Nat))
    (w : S3World) (hor : ∀ i, w.oracle i = none) :
    multipartLoop m key chunks m 1 w =
      (Res.ok key,
       { w with idx := w.idx + chunks.length + 2,
                trace := w.trace ++ [Ev.createMultipart key true]
                  ++ (List.range chunks.length).map
                      (fun i => Ev.uploadPart key (1 + i) true)
                  ++ [Ev.completeMultipart key chunks.length true] }) := by
  cases m with
  | zero => omega
  | succ m0 =>
    rw [multipartLoop]
    simp only [sendCall, hor, Option.isNone_none]
    rw [uploadPartsLoop_ok (m0 + 1) hm key chunks 1 _ (by intro i; exact hor i)]
    simp only [sendCall, hor, Option.isNone_none]
    have hparts : 1 + chunks.length - 1 = chunks.length := by omega
    rw [hparts]
    refine congrArg (fun z => (Res.ok key, z)) ?_
    refine congrArg₂ (fun a b => S3World.mk w.oracle a b w.warns) ?_ ?_
    · omega
    · simp [List.append_assoc]

theorem simpleUploadLoop_ok (m : Nat) (key nm : String) (fuel attempt : Nat)
    (hfuel : 0 < fuel) (w : S3World) (hor : ∀ i, w.oracle i = none) :
    simpleUploadLoop m key nm fuel attempt w =
      (Res.ok key, { w with idx := w.idx + 1,
                            trace := w.trace ++ [Ev.putObject key true] }) := by
  cases fuel with
  | zero => omega
  | succ f =>
    rw [simpleUploadLoop]
    simp [sendCall, hor]

theorem allOkWorld_oracle : ∀ i, allOkWorld.oracle i = none := fun _ => rfl

/-- C1: with a payload of known byte length `L` (a resident buffer, no size
hint) and every S3 call succeeding, `uploadFile` with `L >` the multipart
threshold issues exactly one create-session call, `ceil(L/chunkSize)`
upload-part calls, one completion call and no single PUT; with `L <=` the
threshold it issues exactly one single PUT call and nothing else; and with an
unknown size (a `Readable` source, no hint) the multipart path is chosen.
(In this code base the threshold and the chunk size are the same configured
value `maxUploadPartSize`.) -/
theorem C1_threshold_routing (cs m : Nat) (hcs : 0 < cs) (hm : 0 < m)
    (nm : String) (pre : Option String) (data : List Nat) (src : List (List Nat)) :
    (cs < data.length →
      ((uploadFile cs m ⟨nm, UploadContent.buffer data, none⟩ pre allOkWorld).2.trace.countP
          isCreateEv = 1 ∧
       (uploadFile cs m ⟨nm, UploadContent.buffer data, none⟩ pre allOkWorld).2.trace.countP
          isPartEv = jsCeilDiv data.length cs ∧
       (uploadFile cs m ⟨nm, UploadContent.buffer data, none⟩ pre allOkWorld).2.trace.countP
          isCompleteEv = 1 ∧
       (uploadFile cs m ⟨nm, UploadContent.buffer data, none⟩ pre allOkWorld).2.trace.countP
          isPutEv = 0)) ∧
    (data.length ≤ cs →
      (uploadFile cs m ⟨nm, UploadContent.buffer data, none⟩ pre allOkWorld).2.trace
        = [Ev.putObject (pre.getD "" ++ nm) true]) ∧
    ((uploadFile cs m ⟨nm, UploadContent.readable src, none⟩ pre allOkWorld).2.trace.countP
        isCreateEv = 1 ∧
     (uploadFile cs m ⟨nm, UploadContent.readable src, none⟩ pre allOkWorld).2.trace.countP
        isPutEv = 0) := by
  refine ⟨?_, ?_, ?_⟩
  · intro hL
    have hroute : uploadFile cs m ⟨nm, UploadContent.buffer data, none⟩ pre allOkWorld
        = multipartLoop m (pre.getD "" ++ nm) (bufferToChunks cs data) m 1 allOkWorld := by
      simp only [uploadFile, payloadSizeInBytes, multipartUpload, prepareChunks,
        isStreamType, Bool.false_and, if_neg, Bool.false_eq_true, not_false_iff]
      rw [if_pos hL]
    rw [hroute, multipartLoop_ok m hm _ _ allOkWorld allOkWorld_oracle]
    simp only [allOkWorld, List.nil_append, List.countP_append, List.countP_map,
      List.countP_cons, List.countP_nil]
    simp [isCreateEv, isPartEv, isCompleteEv, isPutEv, Function.comp_def,
      List.countP_true, List.countP_false, bufferToChunks_length]
  · intro hL
    have hroute : uploadFile cs m ⟨nm, UploadContent.buffer data, none⟩ pre allOkWorld
        = simpleUploadLoop m (pre.getD "" ++ nm) nm m 1 allOkWorld := by
      simp only [uploadFile, payloadSizeInBytes, simpleUpload]
      rw [if_neg (by omega)]
    rw [hroute, simpleUploadLoop_ok m _ nm m 1 hm allOkWorld allOkWorld_oracle]
    simp [allOkWorld]
  · have hroute : uploadFile cs m ⟨nm, UploadContent.readable src, none⟩ pre allOkWorld
        = multipartLoop m (pre.getD "" ++ nm) (streamToIterable cs src) m 1 allOkWorld := by
      simp [uploadFile, payloadSizeInBytes, multipartUpload, prepareChunks,
        isStreamType, streamChunks]
    rw [hroute, multipartLoop_ok m hm _ _ allOkWorld allOkWorld_oracle]
    simp [allOkWorld, List.countP_append, List.countP_map, isCreateEv, isPutEv,
      Function.comp_def, List.countP_false]

theorem multipartCatch_cases (m attempt : Nat) (key : String) (cause : JsErr) (w : S3World) :
    (∃ ae, w.oracle w.idx = some ae ∧
      multipartCatch m attempt key cause w
        = (some (Res.err (JsErr.s3 ae)),
           { w with idx := w.idx + 1,
                    trace := w.trace ++ [Ev.abortMultipart key false] })) ∨
    (w.oracle w.idx = none ∧ attempt = m ∧
      multipartCatch m attempt key cause w
        = (some (Res.err (JsErr.wrapped ("to upload " ++ key) cause)),
           { w with idx := w.idx + 1,
                    trace := w.trace ++ [Ev.abortMultipart key true] })) ∨
    (w.oracle w.idx = none ∧ attempt ≠ m ∧
      multipartCatch m attempt key cause w
        = (none,
           { w with idx := w.idx + 1,
                    trace := w.trace ++ [Ev.abortMultipart key true],
                    warns := w.warns + 2 })) := by
  cases hc : w.oracle w.idx with
  | some ae =>
    left
    refine ⟨ae, rfl, ?_⟩
    simp [multipartCatch, sendCall, hc]
  | none =>
    by_cases hatt : attempt = m
    · right; left
      refine ⟨rfl, hatt, ?_⟩
      simp [multipartCatch, sendCall, hc, handleRetryErrorLogging, hatt]
    · right; right
      refine ⟨rfl, hatt, ?_⟩
      simp [multipartCatch, sendCall, hc, handleRetryErrorLogging, hatt]

/-- C3 (amended): every error surfaced by the multipart loop is issued
immediately after an abort-session attempt; when that abort attempt
succeeded the surfaced error is the wrapped original failure, and when the
abort call itself failed the surfaced error is the raw abort error —
propagated in place of the original. -/
theorem C3_abort_attempt_before_error (m : Nat) (key : String) (chunks : List (List Nat)) :
    ∀ (fuel attempt : Nat) (w : S3World) (e : JsErr),
    (multipartLoop m key chunks fuel attempt w).1 = Res.err e →
    ∃ b : Bool,
      (multipartLoop m key chunks fuel attempt w).2.trace.getLast?
        = some (Ev.abortMultipart key b) ∧
      (b = false → ∃ en, e = JsErr.s3 en) ∧
      (b = true → ∃ act cause, e = JsErr.wrapped act cause) := by
  intro fuel
  induction fuel with
  | zero =>
    intro attempt w e h
    simp [multipartLoop] at h
  | succ f ih =>
    intro attempt w e h
    rw [multipartLoop] at h ⊢
    simp only [sendCall] at h ⊢
    cases hc : w.oracle w.idx with
    | some ce =>
      simp only [hc, Option.isNone_some] at h ⊢
      rcases multipartCatch_cases m attempt key (JsErr.s3 ce)
          { w with idx := w.idx + 1,
                   trace := w.trace ++ [Ev.createMultipart key false] }
        with ⟨ae, _, heq⟩ | ⟨_, _, heq⟩ | ⟨_, _, heq⟩
      · rw [heq] at h ⊢
        simp only at h ⊢
        refine ⟨false, ?_, ?_, ?_⟩
        · rw [List.getLast?_concat]
        · intro _
          exact ⟨ae, by cases h; rfl⟩
        · intro hb
          cases hb
      · rw [heq] at h ⊢
        simp only at h ⊢
        refine ⟨true, ?_, ?_, ?_⟩
        · rw [List.getLast?_concat]
        · intro hb
          cases hb
        · intro _
          exact ⟨_, _, by cases h; rfl⟩
      · rw [heq] at h ⊢
        simp only at h ⊢
        exact ih (attempt + 1) _ e h
    | none =>
      simp only [hc, Option.isNone_none] at h ⊢
      cases hp : (uploadPartsLoop m key chunks 1
          { w with idx := w.idx + 1,
                   trace := w.trace ++ [Ev.createMultipart key true] }).1 with
      | ok nparts =>
        simp only [hp] at h ⊢
        cases hf : (uploadPartsLoop m key chunks 1
            { w with idx := w.idx + 1,
                     trace := w.trace ++ [Ev.createMultipart key true] }).2.oracle
            (uploadPartsLoop m key chunks 1
            { w with idx := w.idx + 1,
                     trace := w.trace ++ [Ev.createMultipart key true] }).2.idx with
        | none =>
          simp only [hf, Option.isNone_none] at h ⊢
          cases h
        | some fe =>
          simp only [hf, Option.isNone_some] at h ⊢
          rcases multipartCatch_cases m attempt key (JsErr.s3 fe) _
            with ⟨ae, _, heq⟩ | ⟨_, _, heq⟩ | ⟨_, _, heq⟩
          · rw [heq] at h ⊢
            simp only at h ⊢
            refine ⟨false, ?_, ?_, ?_⟩
            · rw [List.getLast?_concat]
            · intro _
              exact ⟨ae, by cases h; rfl⟩
            · intro hb
              cases hb
          · rw [heq] at h ⊢
            simp only at h ⊢
            refine ⟨true, ?_, ?_, ?_⟩
            · rw [List.getLast?_concat]
            · intro hb
              cases hb
            · intro _
              exact ⟨_, _, by cases h; rfl⟩
          · rw [heq] at h ⊢
            simp only at h ⊢
            exact ih (attempt + 1) _ e h
      | err pe =>
        simp only [hp] at h ⊢
        rcases multipartCatch_cases m attempt key pe _
          with ⟨ae, _, heq⟩ | ⟨_, _, heq⟩ | ⟨_, _, heq⟩
        · rw [heq] at h ⊢
          simp only at h ⊢
          refine ⟨false, ?_, ?_, ?_⟩
          · rw [List.getLast?_concat]
          · intro _
            exact ⟨ae, by cases h; rfl⟩
          · intro hb
            cases hb
        · rw [heq] at h ⊢
          simp only at h ⊢
          refine ⟨true, ?_, ?_, ?_⟩
          · rw [List.getLast?_concat]
          · intro hb
            cases hb
          · intro _
            exact ⟨_, _, by cases h; rfl⟩
        · rw [heq] at h ⊢
          simp only at h ⊢
          exact ih (attempt + 1) _ e h
      | stuck =>
        simp only [hp] at h ⊢
        cases h

/-- C3 counterexample: with `maxAttempts = 1`, a part upload that exhausts its
retries followed by a failing abort call. The abort call is issued, but its
failure is **propagated in place of the original error** (the surfaced error
is the raw abort error, not the wrapped part failure), nothing is logged
about it, and the session is left neither completed nor aborted (no
successful abort and no completion appear in the trace). -/
theorem C3_counterexample :
    (multipartUpload 2 1 ⟨"f", UploadContent.buffer [1, 2, 3], none⟩ (some 3) none
        (worldOf c3Oracle)).1 = Res.err (JsErr.s3 "AbortErr") ∧
    (multipartUpload 2 1 ⟨"f", UploadContent.buffer [1, 2, 3], none⟩ (some 3) none
        (worldOf c3Oracle)).1 ≠ Res.err (JsErr.wrapped ("to upload " ++ "f")
          (JsErr.wrapped ("to upload part " ++ toString 1 ++ " of " ++ "f")
            (JsErr.s3 "PartErr"))) ∧
    (multipartUpload 2 1 ⟨"f", UploadContent.buffer [1, 2, 3], none⟩ (some 3) none
        (worldOf c3Oracle)).2.trace
      = [Ev.createMultipart "f" true, Ev.uploadPart "f" 1 false,
         Ev.abortMultipart "f" false] ∧
    (multipartUpload 2 1 ⟨"f", UploadContent.buffer [1, 2, 3], none⟩ (some 3) none
        (worldOf c3Oracle)).2.warns = 0 := by
  refine ⟨by decide, by decide, by decide, by decide⟩

/-- Witness for the amended C3 theorem: `maxAttempts = 1`, the single part
fails, the abort call succeeds — the surfaced error is the wrapped original
and the last trace event is the successful abort attempt. -/
theorem C3_witness :
    ∃ b : Bool,
      (multipartLoop 1 "f" [[1]] 1 1 (worldOf c3wOracle)).2.trace.getLast?
        = some (Ev.abortMultipart "f" b) ∧
      (b = false → ∃ en, JsErr.wrapped ("to upload " ++ "f")
          (JsErr.wrapped ("to upload part " ++ toString 1 ++ " of " ++ "f")
            (JsErr.s3 "PartErr")) = JsErr.s3 en) ∧
      (b = true → ∃ act cause, JsErr.wrapped ("to upload " ++ "f")
          (JsErr.wrapped ("to upload part " ++ toString 1 ++ " of " ++ "f")
            (JsErr.s3 "PartErr")) = JsErr.wrapped act cause) :=
  C3_abort_attempt_before_error 1 "f" [[1]] 1 1 (worldOf c3wOracle) _ (by decide)

theorem simpleLoop_succeeds (m : Nat) (key nm : String) (en : Nat → String) :
    ∀ (k : Nat) (fuel attempt : Nat) (w : S3World),
    (∀ j, j < k → w.oracle (w.idx + j) = some (en (w.idx + j))) →
    w.oracle (w.idx + k) = none →
    attempt + k ≤ m → k < fuel →
    (simpleUploadLoop m key nm fuel attempt w).1 = Res.ok key ∧
    (simpleUploadLoop m key nm fuel attempt w).2.warns = w.warns + 2 * k ∧
    (simpleUploadLoop m key nm fuel attempt w).2.idx = w.idx + k + 1 := by
  intro k
  induction k with
  | zero =>
    intro fuel attempt w hk hs hcnt hfuel
    cases fuel with
    | zero => omega
    | succ f =>
      rw [simpleUploadLoop]
      simp only [sendCall]
      rw [Nat.add_zero] at hs
      simp [hs]
  | succ k ihk =>
    intro fuel attempt w hk hs hcnt hfuel
    cases fuel with
    | zero => omega
    | succ f =>
      rw [simpleUploadLoop]
      simp only [sendCall]
      have h0 : w.oracle w.idx = some (en w.idx) := by
        have := hk 0 (by omega)
        rw [Nat.add_zero] at this
        exact this
      simp only [h0, Option.isNone_some]
      have hne : attempt ≠ m := by omega
      simp only [handleRetryErrorLogging, if_neg hne]
      have hrec := ihk f (attempt + 1)
        { w with idx := w.idx + 1,
                 trace := w.trace ++ [Ev.putObject key false],
                 warns := w.warns + 2 }
        (by
          intro j hj
          simp only
          have := hk (j + 1) (by omega)
          have harr : w.idx + 1 + j = w.idx + (j + 1) := by omega
          rw [harr]
          exact this)
        (by
          simp only
          have harr : w.idx + 1 + k = w.idx + (k + 1) := by omega
          rw [harr]
          exact hs)
        (by omega) (by omega)
      refine ⟨hrec.1, ?_, ?_⟩
      · rw [hrec.2.1]
        simp only
        omega
      · rw [hrec.2.2]
        simp only
        omega

theorem simpleLoop_exhausts (m : Nat) (key nm : String) (en : Nat → String) :
    ∀ (fuel attempt : Nat) (w : S3World),
    (∀ j, j ≤ m - attempt → w.oracle (w.idx + j) = some (en (w.idx + j))) →
    attempt ≤ m → m - attempt < fuel →
    (simpleUploadLoop m key nm fuel attempt w).1
      = Res.err (JsErr.wrapped ("to upload " ++ nm)
          (JsErr.s3 (en (w.idx + (m - attempt))))) ∧
    (simpleUploadLoop m key nm fuel attempt w).2.warns = w.warns + 2 * (m - attempt) ∧
    (simpleUploadLoop m key nm fuel attempt w).2.idx = w.idx + (m - attempt) + 1 := by
  intro fuel
  induction fuel with
  | zero =>
    intro attempt w hk hatt hfuel
    omega
  | succ f ihf =>
    intro attempt w hk hatt hfuel
    rw [simpleUploadLoop]
    simp only [sendCall]
    have h0 : w.oracle w.idx = some (en w.idx) := by
      have := hk 0 (by omega)
      rw [Nat.add_zero] at this
      exact this
    simp only [h0, Option.isNone_some]
    by_cases hm : attempt = m
    · subst hm
      simp only [handleRetryErrorLogging, if_pos rfl]
      have hz : attempt - attempt = 0 := by omega
      rw [hz]
      simp [Nat.add_zero]
    · simp only [handleRetryErrorLogging, if_neg hm]
      have hrec := ihf (attempt + 1)
        { w with idx := w.idx + 1,
                 trace := w.trace ++ [Ev.putObject key false],
                 warns := w.warns + 2 }
        (by
          intro j hj
          simp only
          have := hk (j + 1) (by omega)
          have harr : w.idx + 1 + j = w.idx + (j + 1) := by omega
          rw [harr]
          exact this)
        (by omega) (by omega)
      refine ⟨?_, ?_, ?_⟩
      · rw [hrec.1]
        simp only
        have harr : w.idx + 1 + (m - (attempt + 1)) = w.idx + (m - attempt) := by omega
        rw [harr]
      · rw [hrec.2.1]
        simp only
        omega
      · rw [hrec.2.2]
        simp only
        omega

/-- C4 (amended): a retried operation (here `simpleUpload`, whose loop calls
`handleRetryErrorLogging`) that fails on the first `maxAttempts - 1` calls
and succeeds on the `maxAttempts`-th returns the success value after exactly
`maxAttempts` operation invocations and logs exactly `2 * (maxAttempts - 1)`
warning lines (each non-final failure logs the attempt message *and* a
"Retrying..." line); one that fails on all `maxAttempts` calls throws a typed
error wrapping the last underlying cause, after exactly `maxAttempts`
invocations — never a `maxAttempts + 1`-th. -/
theorem C4_retry_bound (m : Nat) (hm : 0 < m) (file : FilePayload) (pre : Option String)
    (f : Nat → Option String) (en : Nat → String) :
    ((∀ j, j < m - 1 → f j = some (en j)) → f (m - 1) = none →
      (simpleUpload m file pre (worldOf f)).1 = Res.ok (pre.getD "" ++ file.name) ∧
      (simpleUpload m file pre (worldOf f)).2.warns = 2 * (m - 1) ∧
      (simpleUpload m file pre (worldOf f)).2.idx = m) ∧
    ((∀ j, j < m → f j = some (en j)) →
      (simpleUpload m file pre (worldOf f)).1
        = Res.err (JsErr.wrapped ("to upload " ++ file.name) (JsErr.s3 (en (m - 1)))) ∧
      (simpleUpload m file pre (worldOf f)).2.warns = 2 * (m - 1) ∧
      (simpleUpload m file pre (worldOf f)).2.idx = m) := by
  constructor
  · intro h1 h2
    have hw := simpleLoop_succeeds m (pre.getD "" ++ file.name) file.name en (m - 1)
      m 1 (worldOf f)
      (by
        intro j hj
        show f (0 + j) = some (en (0 + j))
        rw [Nat.zero_add]
        exact h1 j hj)
      (by
        show f (0 + (m - 1)) = none
        rw [Nat.zero_add]
        exact h2)
      (by omega) (by omega)
    simp only [simpleUpload]
    refine ⟨hw.1, ?_, ?_⟩
    · rw [hw.2.1]
      show 0 + 2 * (m - 1) = 2 * (m - 1)
      omega
    · rw [hw.2.2]
      show 0 + (m - 1) + 1 = m
      omega
  · intro h1
    have hw := simpleLoop_exhausts m (pre.getD "" ++ file.name) file.name en m 1 (worldOf f)
      (by
        intro j hj
        show f (0 + j) = some (en (0 + j))
        rw [Nat.zero_add]
        exact h1 j (by omega))
      (by omega) (by omega)
    simp only [simpleUpload]
    have e0 : (worldOf f).idx + (m - 1) = m - 1 := by
      show 0 + (m - 1) = m - 1
      omega
    refine ⟨?_, ?_, ?_⟩
    · rw [hw.1, e0]
    · rw [hw.2.1]
      show 0 + 2 * (m - 1) = 2 * (m - 1)
      omega
    · rw [hw.2.2]
      show 0 + (m - 1) + 1 = m
      omega

/-- C4 counterexample: with `maxAttempts = 2`, one failure then success logs
**two** warning lines (the failure message and "Retrying..."), not the
`maxAttempts - 1 = 1` the claim states. -/
theorem C4_counterexample :
    (simpleUpload 2 ⟨"f", UploadContent.buffer [], none⟩ none (worldOf c4Oracle)).1
      = Res.ok "f" ∧
    (simpleUpload 2 ⟨"f", UploadContent.buffer [], none⟩ none (worldOf c4Oracle)).2.warns
      = 2 ∧
    (simpleUpload 2 ⟨"f", UploadContent.buffer [], none⟩ none (worldOf c4Oracle)).2.warns
      ≠ 2 - 1 := by
  refine ⟨by decide, by decide, by decide⟩

/-- Witness for C4 at `maxAttempts = 3`. -/
theorem C4_witness :
    ((simpleUpload 3 ⟨"f", UploadContent.buffer [], none⟩ none (worldOf c4wOracleA)).1
        = Res.ok (Option.getD none "" ++ "f") ∧
     (simpleUpload 3 ⟨"f", UploadContent.buffer [], none⟩ none (worldOf c4wOracleA)).2.warns
        = 2 * (3 - 1) ∧
     (simpleUpload 3 ⟨"f", UploadContent.buffer [], none⟩ none (worldOf c4wOracleA)).2.idx
        = 3) ∧
    ((simpleUpload 3 ⟨"f", UploadContent.buffer [], none⟩ none (worldOf c4wOracleB)).1
        = Res.err (JsErr.wrapped ("to upload " ++ "f") (JsErr.s3 "E")) ∧
     (simpleUpload 3 ⟨"f", UploadContent.buffer [], none⟩ none (worldOf c4wOracleB)).2.warns
        = 2 * (3 - 1) ∧
     (simpleUpload 3 ⟨"f", UploadContent.buffer [], none⟩ none (worldOf c4wOracleB)).2.idx
        = 3) :=
  ⟨(C4_retry_bound 3 (by decide) ⟨"f", UploadContent.buffer [], none⟩ none c4wOracleA
      (fun _ => "E")).1 (by decide) (by decide),
   (C4_retry_bound 3 (by decide) ⟨"f", UploadContent.buffer [], none⟩ none c4wOracleB
      (fun _ => "E")).2 (by decide)⟩

theorem deleteLoop_notfound (m : Nat) (fp : String) (en : Nat → String) :
    ∀ (k : Nat) (fuel attempt : Nat) (w : S3World),
    (∀ j, j < k → w.oracle (w.idx + j) = some (en (w.idx + j))) →
    (∀ j, j < k → en (w.idx + j) ≠ "NoSuchKey") →
    w.oracle (w.idx + k) = some "NoSuchKey" →
    attempt + k ≤ m → k < fuel →
    (deleteFileLoop m fp fuel attempt w).1
      = Res.ok ⟨false, false, some "File not found"⟩ ∧
    (deleteFileLoop m fp fuel attempt w).2.idx = w.idx + k + 1 := by
  intro k
  induction k with
  | zero =>
    intro fuel attempt w hk hnk hs hcnt hfuel
    cases fuel with
    | zero => omega
    | succ f =>
      rw [deleteFileLoop]
      simp only [sendCall]
      rw [Nat.add_zero] at hs
      simp [hs]
  | succ k ihk =>
    intro fuel attempt w hk hnk hs hcnt hfuel
    cases fuel with
    | zero => omega
    | succ f =>
      rw [deleteFileLoop]
      simp only [sendCall]
      have h0 : w.oracle w.idx = some (en w.idx) := by
        have := hk 0 (by omega)
        rw [Nat.add_zero] at this
        exact this
      have h0n : en w.idx ≠ "NoSuchKey" := by
        have := hnk 0 (by omega)
        rw [Nat.add_zero] at this
        exact this
      simp only [h0, Option.isNone_some, if_neg h0n]
      have hne : attempt ≠ m := by omega
      simp only [handleRetryErrorLogging, if_neg hne]
      have hrec := ihk f (attempt + 1)
        { w with idx := w.idx + 1,
                 trace := w.trace ++ [Ev.deleteObject fp false],
                 warns := w.warns + 2 }
        (by
          intro j hj
          simp only
          have := hk (j + 1) (by omega)
          have harr : w.idx + 1 + j = w.idx + (j + 1) := by omega
          rw [harr]
          exact this)
        (by
          intro j hj
          simp only
          have := hnk (j + 1) (by omega)
          have harr : w.idx + 1 + j = w.idx + (j + 1) := by omega
          rw [harr]
          exact this)
        (by
          simp only
          have harr : w.idx + 1 + k = w.idx + (k + 1) := by omega
          rw [harr]
          exact hs)
        (by omega) (by omega)
      refine ⟨hrec.1, ?_⟩
      rw [hrec.2]
      simp only
      omega

/-- C7: when the delete call reports the object absent (a `NoSuchKey` error,
possibly after some transient failures that stayed under the retry budget),
`deleteFile` returns normally with the non-throwing
`{success: false, deleted: false, reason: "File not found"}` result, and the
delete is not retried after the not-found response (exactly `k + 1` delete
calls are issued in total). -/
theorem C7_delete_notfound (m k : Nat) (fp : String) (f : Nat → Option String)
    (en : Nat → String)
    (hk : ∀ j, j < k → f j = some (en j))
    (hnk : ∀ j, j < k → en j ≠ "NoSuchKey")
    (hfound : f k = some "NoSuchKey")
    (hkm : k < m) :
    (deleteFile m fp (worldOf f)).1 = Res.ok ⟨false, false, some "File not found"⟩ ∧
    (deleteFile m fp (worldOf f)).2.idx = k + 1 := by
  have hw := deleteLoop_notfound m fp en k m 1 (worldOf f)
    (by
      intro j hj
      show f (0 + j) = some (en (0 + j))
      rw [Nat.zero_add]
      exact hk j hj)
    (by
      intro j hj
      show en (0 + j) ≠ "NoSuchKey"
      rw [Nat.zero_add]
      exact hnk j hj)
    (by
      show f (0 + k) = some "NoSuchKey"
      rw [Nat.zero_add]
      exact hfound)
    (by omega) (by omega)
  simp only [deleteFile]
  refine ⟨hw.1, ?_⟩
  rw [hw.2]
  show 0 + k + 1 = k + 1
  omega

/-- Witness for C7: one transient failure, then `NoSuchKey`, with
`maxAttempts = 3`. -/
theorem C7_witness :
    (deleteFile 3 "k.txt" (worldOf c7Oracle)).1
      = Res.ok ⟨false, false, some "File not found"⟩ ∧
    (deleteFile 3 "k.txt" (worldOf c7Oracle)).2.idx = 1 + 1 :=
  C7_delete_notfound 3 1 "k.txt" c7Oracle (fun _ => "Boom")
    (by decide) (by decide) (by decide) (by decide)

theorem uploadMultipleFiles_foldl (pre : Option String) (files : List FilePayload)
    (fails : Nat → Bool) :
    ∀ (l : List Nat) (acc : List String × List String),
    (∀ i ∈ l, i < files.length) →
    l.foldl (fun acc i =>
      match files[i]? with
      | none => acc
      | some file =>
        if fails i then (acc.1, acc.2 ++ [file.name])
        else (acc.1 ++ [pre.getD "" ++ file.name], acc.2)) acc
    = (acc.1 ++ (l.filter (fun i => !fails i)).map
        (fun i => pre.getD "" ++ fileNameAt files i),
       acc.2 ++ (l.filter (fun i => fails i)).map (fileNameAt files)) := by
  intro l
  induction l with
  | nil =>
    intro acc hvalid
    simp
  | cons i rest ih =>
    intro acc hvalid
    have hi : i < files.length := hvalid i (List.mem_cons_self i rest)
    have hget : files[i]? = some files[i] := List.getElem?_eq_getElem hi
    have hname : fileNameAt files i = files[i].name := by
      simp [fileNameAt, hget]
    rw [List.foldl_cons]
    cases hf : fails i with
    | true =>
      simp only [hget, hf, if_pos rfl]
      rw [ih _ (fun j hj => hvalid j (List.mem_cons_of_mem i hj))]
      simp only [List.filter_cons, hf, Bool.not_true]
      simp [hname, List.append_assoc]
    | false =>
      simp only [hget, hf]
      rw [if_neg (by simp)]
      rw [ih _ (fun j hj => hvalid j (List.mem_cons_of_mem i hj))]
      simp only [List.filter_cons, hf, Bool.not_false]
      simp [hname, List.append_assoc]

/-- C6: for any list of files in which exactly the files of subset `F` (given
by `fails`) throw and the rest succeed, `uploadMultipleFiles` (which never
throws — the per-file catch captures every failure) returns `skippedFiles`
containing exactly the names of the failing files and `filePaths` containing
exactly the destination keys of the others, whatever completion order the
concurrent uploads finish in. -/
theorem C6_batch_isolation (pre : Option String) (files : List FilePayload)
    (fails : Nat → Bool) (order : List Nat)
    (h : order.Perm (List.range files.length)) :
    (uploadMultipleFiles pre files fails order).2.Perm
      (((List.range files.length).filter (fun i => fails i)).map (fileNameAt files)) ∧
    (uploadMultipleFiles pre files fails order).1.Perm
      (((List.range files.length).filter (fun i => !fails i)).map
        (fun i => pre.getD "" ++ fileNameAt files i)) := by
  have hvalid : ∀ i ∈ order, i < files.length := by
    intro i hi
    have : i ∈ List.range files.length := h.mem_iff.1 hi
    exact List.mem_range.1 this
  have hrun := uploadMultipleFiles_foldl pre files fails order ([], []) hvalid
  constructor
  · show (uploadMultipleFiles pre files fails order).2.Perm _
    rw [uploadMultipleFiles, hrun]
    simp only [List.nil_append]
    exact (h.filter (fun i => fails i)).map (fileNameAt files)
  · rw [uploadMultipleFiles, hrun]
    simp only [List.nil_append]
    exact (h.filter (fun i => !fails i)).map (fun i => pre.getD "" ++ fileNameAt files i)

/-- Witness for C6: three files of which exactly the second fails, finishing
in completion order `[2, 0, 1]`. -/
theorem C6_witness :
    (uploadMultipleFiles none
      [⟨"a", UploadContent.buffer [], none⟩, ⟨"b", UploadContent.buffer [], none⟩,
       ⟨"c", UploadContent.buffer [], none⟩] (fun i => i == 1) [2, 0, 1]).2.Perm
      (((List.range ([⟨"a", UploadContent.buffer [], none⟩,
          ⟨"b", UploadContent.buffer [], none⟩,
          ⟨"c", UploadContent.buffer [], none⟩] : List FilePayload).length).filter
            (fun i => i == 1)).map
        (fileNameAt [⟨"a", UploadContent.buffer [], none⟩,
          ⟨"b", UploadContent.buffer [], none⟩,
          ⟨"c", UploadContent.buffer [], none⟩])) ∧
    (uploadMultipleFiles none
      [⟨"a", UploadContent.buffer [], none⟩, ⟨"b", UploadContent.buffer [], none⟩,
       ⟨"c", UploadContent.buffer [], none⟩] (fun i => i == 1) [2, 0, 1]).1.Perm
      (((List.range ([⟨"a", UploadContent.buffer [], none⟩,
          ⟨"b", UploadContent.buffer [], none⟩,
          ⟨"c", UploadContent.buffer [], none⟩] : List FilePayload).length).filter
            (fun i => !(i == 1))).map
        (fun i => Option.getD none "" ++ fileNameAt [⟨"a", UploadContent.buffer [], none⟩,
          ⟨"b", UploadContent.buffer [], none⟩,
          ⟨"c", UploadContent.buffer [], none⟩] i)) :=
  C6_batch_isolation none
    [⟨"a", UploadContent.buffer [], none⟩, ⟨"b", UploadContent.buffer [], none⟩,
     ⟨"c", UploadContent.buffer [], none⟩] (fun i => i == 1) [2, 0, 1] (by decide)

/-- C8 (code behaviour at the failing input): on a store serving 3 pages of
sizes 2, 2, 1 linked by continuation tokens, `S3FMContext.listItems` returns
all 5 keys sorted ascending, fetching pages 0, 1, 2 each exactly once and in
order — while `FileService.listItems`, which reads the echoed
`ContinuationToken` instead of `NextContinuationToken` and never threads a
token into the next request, stops after the first page and returns only its
2 keys. -/
theorem C8_pagination_divergence :
    ctxListItems [["b.txt", "a.txt"], ["d.txt", "c.txt"], ["e.txt"]] (fun _ => true)
      = (["a.txt", "b.txt", "c.txt", "d.txt", "e.txt"], [0, 1, 2]) ∧
    fsListItems [["b.txt", "a.txt"], ["d.txt", "c.txt"], ["e.txt"]] (fun _ => true)
      = some (["a.txt", "b.txt"], [0]) :=
  ⟨by decide, by decide⟩

/-- C9 counterexample: a configured value of exactly 5 MiB lies within the
claimed acceptance range "5MiB to 100MiB", yet the code's strict bound
(`userMaxPartSize > MIN_UPLOAD_PART_SIZE`) rejects it and falls back to the
10 MiB default. -/
theorem C9_counterexample :
    MIN_UPLOAD_PART_SIZE ≤ 5 * 1024 * 1024 ∧
    5 * 1024 * 1024 ≤ MAX_UPLOAD_PART_SIZE ∧
    effectiveMaxUploadPartSize (some 5) = DEFAULT_UPLOAD_PART_SIZE ∧
    effectiveMaxUploadPartSize (some 5) ≠ 5 * 1024 * 1024 :=
  ⟨by decide, by decide, by decide, by decide⟩

/-- C9 (amended): a configured threshold of `mb` megabytes is effective only
when it lies **strictly** between 5 MiB and 100 MiB; at exactly 5 MiB or
100 MiB, outside the range, or when no value is configured, the effective
threshold is the 10 MiB default. -/
theorem C9_threshold_fallback :
    (∀ mb : Nat, MIN_UPLOAD_PART_SIZE < mb * 1024 * 1024 →
      mb * 1024 * 1024 < MAX_UPLOAD_PART_SIZE →
      effectiveMaxUploadPartSize (some mb) = mb * 1024 * 1024) ∧
    (∀ mb : Nat, mb * 1024 * 1024 ≤ MIN_UPLOAD_PART_SIZE ∨
      MAX_UPLOAD_PART_SIZE ≤ mb * 1024 * 1024 →
      effectiveMaxUploadPartSize (some mb) = DEFAULT_UPLOAD_PART_SIZE) ∧
    effectiveMaxUploadPartSize none = DEFAULT_UPLOAD_PART_SIZE := by
  refine ⟨?_, ?_, by decide⟩
  · intro mb h1 h2
    simp only [effectiveMaxUploadPartSize]
    rw [if_pos ⟨h1, h2⟩]
  · intro mb h
    simp only [effectiveMaxUploadPartSize]
    rw [if_neg]
    rintro ⟨ha, hb⟩
    rcases h with h | h
    · omega
    · omega

/-- Witness for C9: 8 MiB is accepted verbatim, 200 MiB falls back, absence
falls back. -/
theorem C9_witness :
    effectiveMaxUploadPartSize (some 8) = 8 * 1024 * 1024 ∧
    effectiveMaxUploadPartSize (some 200) = DEFAULT_UPLOAD_PART_SIZE ∧
    effectiveMaxUploadPartSize none = DEFAULT_UPLOAD_PART_SIZE :=
  ⟨C9_threshold_fallback.1 8 (by decide) (by decide),
   C9_threshold_fallback.2.1 200 (Or.inr (by decide)),
   C9_threshold_fallback.2.2⟩

/-- C10 (amended): the key returned by `uploadFile` is the verbatim
concatenation of the prefix option and the file name, with no separator
inserted (on both the simple and the multipart path); `copyFile` appends
exactly one `/` when the trimmed destination prefix does not already end in
a slash, but a prefix that already ends in `/` is concatenated unchanged —
pre-existing duplicate slashes are preserved, not normalised away. -/
theorem C10_destination_keys (cs m : Nat) (hm : 0 < m) (file : FilePayload)
    (pre : Option String) :
    (uploadFile cs m file pre allOkWorld).1 = Res.ok (pre.getD "" ++ file.name) ∧
    (∀ fp dp : String, dp ≠ "" →
      endsWithSlash (jsTrim dp) = false →
      startsWithSlash (jsTrim (posixBasename fp)) = false →
      copyDestinationPath fp dp none = jsTrim dp ++ "/" ++ jsTrim (posixBasename fp)) ∧
    (∀ fp dp : String, dp ≠ "" →
      endsWithSlash (jsTrim dp) = true →
      startsWithSlash (jsTrim (posixBasename fp)) = false →
      copyDestinationPath fp dp none = jsTrim dp ++ jsTrim (posixBasename fp)) := by
  refine ⟨?_, ?_, ?_⟩
  · cases hsize : payloadSizeInBytes file with
    | none =>
      simp only [uploadFile, hsize, multipartUpload]
      rw [multipartLoop_ok m hm _ _ allOkWorld allOkWorld_oracle]
    | some n =>
      simp only [uploadFile, hsize]
      by_cases hc : cs < n
      · rw [if_pos hc]
        simp only [multipartUpload]
        rw [multipartLoop_ok m hm _ _ allOkWorld allOkWorld_oracle]
      · rw [if_neg hc]
        simp only [simpleUpload]
        rw [simpleUploadLoop_ok m _ _ m 1 hm allOkWorld allOkWorld_oracle]
  · intro fp dp hne h1 h2
    simp only [copyDestinationPath]
    rw [if_pos hne]
    simp [formatPrefix, h1, h2]
  · intro fp dp hne h1 h2
    simp only [copyDestinationPath]
    rw [if_pos hne]
    simp [formatPrefix, h1, h2]

/-- C10 counterexample: a destination prefix ending in two slashes is used
verbatim by `copyFile`, so the claimed "exactly one `/` separates prefix and
filename" fails — the destination is `a//f`, not `a/f`. -/
theorem C10_counterexample :
    copyDestinationPath "f" "a//" none = "a//f" ∧
    ¬ joinedWithSingleSlash "a//" "f" (copyDestinationPath "f" "a//" none) := by
  constructor
  · decide
  · show copyDestinationPath "f" "a//" none ≠ dropTrailingSlashes "a//" ++ "/" ++ "f"
    decide

/-- Witness for C10 at concrete keys. -/
theorem C10_witness :
    (uploadFile 2 1 ⟨"n.txt", UploadContent.buffer [1], none⟩ (some "p") allOkWorld).1
      = Res.ok (Option.getD (some "p") "" ++ "n.txt") ∧
    copyDestinationPath "dir/f.txt" "dest" none
      = jsTrim "dest" ++ "/" ++ jsTrim (posixBasename "dir/f.txt") ∧
    copyDestinationPath "f" "a/" none = jsTrim "a/" ++ jsTrim (posixBasename "f") :=
  ⟨(C10_destination_keys 2 1 (by decide) ⟨"n.txt", UploadContent.buffer [1], none⟩
      (some "p")).1,
   (C10_destination_keys 2 1 (by decide) ⟨"x", UploadContent.buffer [], none⟩ none).2.1
      "dir/f.txt" "dest" (by decide) (by decide) (by decide),
   (C10_destination_keys 2 1 (by decide) ⟨"x", UploadContent.buffer [], none⟩ none).2.2
      "f" "a/" (by decide) (by decide) (by decide)⟩

/-- Witness for C1: a 5-byte buffer with a 2-byte threshold/chunk size gives
one create, 3 parts and one complete; a 1-byte buffer gives a single PUT; a
stream of unknown size goes multipart. -/
theorem C1_witness :
    (((uploadFile 2 3 ⟨"f", UploadContent.buffer [0, 1, 2, 3, 4], none⟩ none
        allOkWorld).2.trace.countP isCreateEv = 1 ∧
      (uploadFile 2 3 ⟨"f", UploadContent.buffer [0, 1, 2, 3, 4], none⟩ none
        allOkWorld).2.trace.countP isPartEv
          = jsCeilDiv ([0, 1, 2, 3, 4] : List Nat).length 2 ∧
      (uploadFile 2 3 ⟨"f", UploadContent.buffer [0, 1, 2, 3, 4], none⟩ none
        allOkWorld).2.trace.countP isCompleteEv = 1 ∧
      (uploadFile 2 3 ⟨"f", UploadContent.buffer [0, 1, 2, 3, 4], none⟩ none
        allOkWorld).2.trace.countP isPutEv = 0)) ∧
    ((uploadFile 2 3 ⟨"g", UploadContent.buffer [9], none⟩ none allOkWorld).2.trace
      = [Ev.putObject (Option.getD none "" ++ "g") true]) ∧
    ((uploadFile 2 3 ⟨"h", UploadContent.readable [[1]], none⟩ none allOkWorld).2.trace.countP
        isCreateEv = 1 ∧
     (uploadFile 2 3 ⟨"h", UploadContent.readable [[1]], none⟩ none allOkWorld).2.trace.countP
        isPutEv = 0) :=
  ⟨(C1_threshold_routing 2 3 (by decide) (by decide) "f" none [0, 1, 2, 3, 4]
      [[1]]).1 (by decide),
   (C1_threshold_routing 2 3 (by decide) (by decide) "g" none [9] [[1]]).2.1 (by decide),
   (C1_threshold_routing 2 3 (by decide) (by decide) "h" none [9] [[1]]).2.2⟩

end S3FM
